import Mathlib

/-
Verification development for the log-lazy library.

The JavaScript source is shallowly embedded below. Two parallel
implementations exist in the repository: the function-style logger built by
makeLog (src/src/index.js) and the class-style LazyLog (a second source
file). Both are embedded here over explicit state records. JavaScript
numbers are modelled as Int, with the ToInt32/ToUint32 coercions that the
bitwise operators apply made explicit. JavaScript objects used as maps are
modelled as association lists where a later write shadows an earlier one.
Thunks passed as log arguments are modelled by their observable behaviour
(return a value, or raise with a message) together with an identifier, so
that a theorem can state exactly which thunks a call invoked.
-/

namespace LogLazy

/-! ## JavaScript number primitives: the ToInt32 / ToUint32 coercions that
the bitwise operators `&`, `|`, `~` apply to their operands. -/

/-- Unsigned 32-bit pattern of an integer, as ToUint32 computes it. -/
def toU32 (i : Int) : Nat := (i % 4294967296).toNat

/-- Reinterpret an unsigned 32-bit pattern as a signed 32-bit integer. -/
def ofU32 (n : Nat) : Int :=
  if n < 2147483648 then (n : Int) else (n : Int) - 4294967296

/-- ToInt32 coercion applied by every JavaScript bitwise operator. -/
def toI32 (i : Int) : Int := ofU32 (toU32 i)

/-- JavaScript bitwise AND on integer-valued numbers. -/
def jsAnd (a b : Int) : Int := ofU32 (Nat.land (toU32 a) (toU32 b))

/-- JavaScript bitwise OR on integer-valued numbers. -/
def jsOr (a b : Int) : Int := ofU32 (Nat.lor (toU32 a) (toU32 b))

/-- JavaScript bitwise NOT on integer-valued numbers. -/
def jsNot (a : Int) : Int := ofU32 (Nat.xor (toU32 a) 4294967295)

/-! ## parseInt and ToNumber

The source resolves numeric strings with `parseInt(level)`. `parseInt`
skips leading whitespace, accepts an optional sign, auto-detects a 0x/0X
hexadecimal marker, and then takes the longest prefix of digits; it yields
NaN (modelled as `none`) when no digit is found. The class implementation
can also coerce a string stored in its level field through ToNumber when a
bitwise operator touches it; `jsToNumber` models ToNumber on strings with
integer syntax (decimal or 0x-hexadecimal); strings with non-integer
numeric syntax do not occur in the claims and are mapped to NaN. -/

/-- Whitespace characters skipped by parseInt and ToNumber. -/
def isJsSpace (c : Char) : Bool :=
  c == ' ' || c == '\t' || c == '\n' || c == '\r' ||
  c.toNat == 11 || c.toNat == 12

/-- Value of a decimal digit character, if it is one. -/
def digitVal10 (c : Char) : Option Nat :=
  if '0' ≤ c && c ≤ '9' then some (c.toNat - 48) else none

/-- Value of a hexadecimal digit character, if it is one. -/
def digitVal16 (c : Char) : Option Nat :=
  if '0' ≤ c && c ≤ '9' then some (c.toNat - 48)
  else if 'a' ≤ c && c ≤ 'f' then some (c.toNat - 87)
  else if 'A' ≤ c && c ≤ 'F' then some (c.toNat - 55)
  else none

/-- Accumulate the longest prefix of digits, starting from `acc`. -/
def takeDigits (dv : Char → Option Nat) (base : Nat) : Nat → List Char → Nat
  | acc, [] => acc
  | acc, c :: cs =>
    match dv c with
    | some d => takeDigits dv base (acc * base + d) cs
    | none => acc

/-- Longest digit prefix as a number; `none` when there is no digit. -/
def digitsValue (dv : Char → Option Nat) (base : Nat) : List Char → Option Nat
  | [] => none
  | c :: cs =>
    match dv c with
    | some d => some (takeDigits dv base d cs)
    | none => none

/-- Magnitude part of parseInt: auto-detects the 0x/0X hexadecimal marker,
otherwise reads decimal digits. -/
def parseIntBody (cs : List Char) : Option Nat :=
  match cs with
  | '0' :: 'x' :: rest => digitsValue digitVal16 16 rest
  | '0' :: 'X' :: rest => digitsValue digitVal16 16 rest
  | _ => digitsValue digitVal10 10 cs

/-- Model of JavaScript `parseInt(s)` with no radix argument; `none` is NaN. -/
def jsParseInt (s : String) : Option Int :=
  match s.data.dropWhile isJsSpace with
  | '+' :: rest => (parseIntBody rest).map (fun n => (n : Int))
  | '-' :: rest => (parseIntBody rest).map (fun n => -(n : Int))
  | rest => (parseIntBody rest).map (fun n => (n : Int))

/-- Digits only, consuming the whole list; `none` otherwise or when empty. -/
def allDigitsValue (dv : Char → Option Nat) (base : Nat) : List Char → Option Nat
  | [] => none
  | cs => if cs.all (fun c => (dv c).isSome)
          then some (cs.foldl (fun acc c => acc * base + ((dv c).getD 0)) 0)
          else none

/-- Model of JavaScript ToNumber on strings with integer syntax: surrounding
whitespace is trimmed, the empty string is 0, a sign is allowed for decimal
digits, 0x marks hexadecimal (with no sign, as in JavaScript); every other
string is mapped to NaN (`none`). Non-integer numeric syntax such as
decimals or exponents is outside the scope of the claims. -/
def jsToNumber (s : String) : Option Int :=
  let cs := ((s.data.dropWhile isJsSpace).reverse.dropWhile isJsSpace).reverse
  match cs with
  | [] => some 0
  | '+' :: rest => (allDigitsValue digitVal10 10 rest).map (fun n => (n : Int))
  | '-' :: rest => (allDigitsValue digitVal10 10 rest).map (fun n => -(n : Int))
  | '0' :: 'x' :: rest => (allDigitsValue digitVal16 16 rest).map (fun n => (n : Int))
  | '0' :: 'X' :: rest => (allDigitsValue digitVal16 16 rest).map (fun n => (n : Int))
  | other => (allDigitsValue digitVal10 10 other).map (fun n => (n : Int))

/-! ## Values, level references, log arguments, and output sinks -/

/-- Plain JavaScript values that flow through log calls in the claims. -/
inductive JVal where
  | vstr : String → JVal
  | vnum : Int → JVal
  | vundef : JVal
deriving DecidableEq, Repr

/-- A level reference as the source receives it: a string, a number, or any
other value (undefined, objects, ...), which every resolution path treats
uniformly as unresolvable. -/
inductive LevelRef where
  | str : String → LevelRef
  | num : Int → LevelRef
  | other : LevelRef
deriving DecidableEq, Repr

/-- Observable behaviour of a zero-argument thunk passed as a log argument:
it either returns a value or raises an error carrying a message. -/
inductive ThunkBeh where
  | ret : JVal → ThunkBeh
  | raise : String → ThunkBeh
deriving DecidableEq, Repr

/-- A log-call argument: a plain value, or a function value (a thunk) tagged
with an identifier so theorems can state which thunks were invoked. -/
inductive LogArg where
  | plain : JVal → LogArg
  | thunk : Nat → ThunkBeh → LogArg
deriving DecidableEq, Repr

/-- An output sink: a user-supplied callable from options.log, or one of the
console defaults used by the source (console.error / console.warn /
console.log). -/
inductive Sink where
  | user : String → Sink
  | consoleError : Sink
  | consoleWarn : Sink
  | consoleLog : Sink
deriving DecidableEq, Repr

/-! ## Association-list maps

JavaScript objects used as string-keyed or number-keyed maps are modelled
as association lists where a later write is consed on the front, so lookup
(first match) sees the most recent write: last-write-wins. -/

/-- Lookup of an own property in a name-to-value table. A real property
read on these plain objects also reaches the inherited Object.prototype
members; `jsGet` below adds that prototype chain, and the claims where the
inherited members are observable are stated with it. -/
def alook (m : List (String × Int)) (k : String) : Option Int :=
  (m.find? (fun p => p.1 == k)).map (fun p => p.2)

/-- Lookup in a value-to-name reverse table. -/
def rlook (m : List (Int × String)) (v : Int) : Option String :=
  (m.find? (fun p => p.1 == v)).map (fun p => p.2)

/-- Perform a sequence of writes (in list order) on a name-to-value table. -/
def insertAllS (ps : List (String × Int)) (base : List (String × Int)) :
    List (String × Int) :=
  ps.foldl (fun acc p => p :: acc) base

/-- Perform a sequence of writes (in list order) on a reverse table. -/
def insertAllR (ps : List (String × Int)) (base : List (Int × String)) :
    List (Int × String) :=
  ps.foldl (fun acc p => (p.2, p.1) :: acc) base

/-- Value of the last write with key `k` in the write sequence `ps`. -/
def lastValFor (ps : List (String × Int)) (k : String) : Option Int :=
  ps.foldl (fun acc p => if p.1 == k then some p.2 else acc) none

/-- Name of the last write with value `v` in the write sequence `ps`. -/
def lastKeyFor (ps : List (String × Int)) (v : Int) : Option String :=
  ps.foldl (fun acc p => if p.2 == v then some p.1 else acc) none

/-! ## The static level tables of the source

The function-style module exports `levels` and `levelNames` including the
production and development presets; the class declares static tables
without them (its constructor adds them). The source object literals list
the preset entries last, which the list concatenation mirrors. -/

/-- Static `LazyLog.levels` table of the class implementation. -/
def cStaticLevels : List (String × Int) :=
  [("none", 0), ("fatal", 1), ("error", 2), ("warn", 4), ("info", 8),
   ("debug", 16), ("verbose", 32), ("trace", 64), ("silly", 128),
   ("all", 255)]

/-- Static `LazyLog.levelNames` reverse table of the class implementation. -/
def cStaticLevelNames : List (Int × String) :=
  [(0, "none"), (1, "fatal"), (2, "error"), (4, "warn"), (8, "info"),
   (16, "debug"), (32, "verbose"), (64, "trace"), (128, "silly"),
   (255, "all")]

/-- Static exported `levels` table of the function-style module, which also
lists the two presets. -/
def staticLevels : List (String × Int) :=
  cStaticLevels ++ [("production", 7), ("development", 31)]

/-- Static exported `levelNames` reverse table of the function-style module. -/
def staticLevelNames : List (Int × String) :=
  cStaticLevelNames ++ [(31, "development"), (7, "production")]

/-- The 8 base severity names in fixed declaration order. -/
def baseNames : List String :=
  ["fatal", "error", "warn", "info", "debug", "verbose", "trace", "silly"]

/-! ## Level resolution -/

/-- Embedding of `getLevelOrDefault(level, levelsMap, defaultValue)` from
the function-style module; the private class method `#getLevelOrDefault` is
the same function applied to the instance table. It is total: no input
makes it throw. This version reads own properties only; a string naming an
inherited Object.prototype member really returns that member instead of
falling through (see `getLevelOrDefaultP` below). In every position where
this definition is used, that difference is unobservable: the leaked
member coerces to NaN, hence to 0, under the bitwise operators, exactly as
the 0 this version resolves such strings to. -/
def getLevelOrDefault (level : LevelRef) (levelsMap : List (String × Int))
    (defaultValue : Int) : Int :=
  match level with
  | .str s =>
    match alook levelsMap s with
    | some value => value
    | none =>
      match jsParseInt s with
      | some parsed => parsed
      | none => defaultValue
  | .num n => n
  | .other => defaultValue

/-! ## Construction options and the preset write sequence -/

/-- Constructor options record: the initial level reference, the optional
presets object (an ordered list of distinct keys, as Object.keys walks it),
and the names for which options.log supplies a user output callable. -/
structure Options where
  level : LevelRef
  presets : Option (List (String × Int))
  logOverrides : List String
deriving DecidableEq, Repr

/-- JavaScript `x || dflt` on an optionally-present integer: an absent or
zero (falsy) value falls back to the default. -/
def jsOrDefault (supplied : Option Int) (dflt : Int) : Int :=
  match supplied with
  | some v => if v == 0 then dflt else v
  | none => dflt

/-- Custom preset entries: every presets key except the two reserved names,
in Object.keys order; this is the input of the generic custom-preset loop. -/
def customPresets (ps : List (String × Int)) : List (String × Int) :=
  ps.filter (fun p => p.1 != "production" && p.1 != "development")

/-- Resolved value of the production preset: the caller's value when given
(JavaScript `||`, so a zero value falls back), else fatal|error|warn from
the base table. -/
def productionValue (base : List (String × Int)) (opts : Options) : Int :=
  jsOrDefault (opts.presets.bind (fun m => alook m "production"))
    (jsOr (jsOr ((alook base "fatal").getD 0) ((alook base "error").getD 0))
      ((alook base "warn").getD 0))

/-- Resolved value of the development preset, analogously
fatal|error|warn|info|debug. -/
def developmentValue (base : List (String × Int)) (opts : Options) : Int :=
  jsOrDefault (opts.presets.bind (fun m => alook m "development"))
    (jsOr (jsOr (jsOr (jsOr ((alook base "fatal").getD 0)
      ((alook base "error").getD 0)) ((alook base "warn").getD 0))
      ((alook base "info").getD 0)) ((alook base "debug").getD 0))

/-- The sequence of table writes both constructors perform after copying
their static table: production, development, then the custom presets in
order (the generic loop skips the two reserved keys). Each write updates
the forward and the reverse table together. -/
def presetWrites (base : List (String × Int)) (opts : Options) :
    List (String × Int) :=
  ("production", productionValue base opts) ::
    ("development", developmentValue base opts) ::
      customPresets (opts.presets.getD [])

/-! ## Output bindings -/

/-- Default console sink per base severity: console.error for fatal and
error, console.warn for warn, console.log for the rest. -/
def defaultSink (name : String) : Sink :=
  if name == "fatal" || name == "error" then .consoleError
  else if name == "warn" then .consoleWarn
  else .consoleLog

/-- Own properties of the externalLog object built at construction:
exactly the 8 base severity names, each bound to
`options.log?.[name] || default`. A real read of any other name still
reaches the inherited Object.prototype members; `externalLogGetP` below
models that chain, and the no-fallback-sink claim is stated with it. -/
def externalLogFor (overrides : List String) (name : String) : Option Sink :=
  if name ∈ baseNames then
    some (if name ∈ overrides then .user name else defaultSink name)
  else none

/-! ## Function-style logger state and operations (makeLog) -/

/-- Closure state of a logger built by makeLog: the per-instance tables,
the mutable mask, and the output overrides. The mask is always a number
because every write to it goes through getLevelOrDefault. -/
structure LogState where
  levels : List (String × Int)
  levelNames : List (Int × String)
  currentLevel : Int
  logOverrides : List String
deriving DecidableEq, Repr

/-- Embedding of makeLog: copy the static tables, write the production and
development presets into both tables, run the custom-preset loop, then
parse the initial level with the info entry as fallback. -/
def makeLog (opts : Options) : LogState :=
  let lv := insertAllS (presetWrites staticLevels opts) staticLevels
  { levels := lv
    levelNames := insertAllR (presetWrites staticLevels opts) staticLevelNames
    currentLevel := getLevelOrDefault opts.level lv ((alook lv "info").getD 0)
    logOverrides := opts.logOverrides }

/-- Embedding of the closure `shouldLog`: false immediately on mask 0, else
test the resolved bit against the mask. -/
def shouldLog (st : LogState) (level : LevelRef) : Bool :=
  if st.currentLevel == 0 then false
  else jsAnd st.currentLevel (getLevelOrDefault level st.levels 0) != 0

/-- Realize one log argument as `logMessage` does: invoke a function-valued
argument and use its return value; if the invocation raises with message m,
substitute the diagnostic string; pass every other value through. -/
def realizeArg : LogArg → JVal
  | .plain v => v
  | .thunk _ (.ret v) => v
  | .thunk _ (.raise m) =>
      .vstr ("[Error evaluating log argument function: " ++ m ++ "]")

/-- Identifiers of the function-valued arguments in original order; these
are exactly the thunks an enabled call invokes, each once. -/
def invokedIds (args : List LogArg) : List Nat :=
  args.filterMap (fun a =>
    match a with
    | .thunk id _ => some id
    | .plain _ => none)

/-- Name the output dispatch resolves for the level argument: a numeric
level goes through the reverse table, a string is used as-is, and any other
value (which the source leaves as a non-string lookup key) binds nothing. -/
def dispatchName (st : LogState) (level : LevelRef) : Option String :=
  match level with
  | .num v => rlook st.levelNames v
  | .str s => some s
  | .other => none

/-- Output function the dispatch finds, if any. -/
def sinkFor (st : LogState) (level : LevelRef) : Option Sink :=
  (dispatchName st level).bind (externalLogFor st.logOverrides)

/-- Embedding of `logMessage(level, ...args)`: the pair of the invoked
thunk identifiers and the output invocations (sink with realized argument
list) the call performs. The function is total: the per-argument try/catch
means no exception propagates to the caller. -/
def logMessage (st : LogState) (level : LevelRef) (args : List LogArg) :
    List Nat × List (Sink × List JVal) :=
  if shouldLog st level then
    let processedArgs := args.map realizeArg
    match sinkFor st level with
    | some fn => (invokedIds args, [(fn, processedArgs)])
    | none => (invokedIds args, [])
  else ([], [])

/-- Level value a severity method dispatches: the table entry of its name
(`logMessage(logLevels.fatal, ...)` and so on). -/
def sevLevelRef (st : LogState) (name : String) : LevelRef :=
  match alook st.levels name with
  | some v => .num v
  | none => .other

/-- A severity method call, e.g. `log.fatal(...)`. -/
def sevCall (st : LogState) (name : String) (args : List LogArg) :
    List Nat × List (Sink × List JVal) :=
  logMessage st (sevLevelRef st name) args

/-- The default call form `log(...)`, which targets the info level. -/
def defaultCall (st : LogState) (args : List LogArg) :
    List Nat × List (Sink × List JVal) :=
  logMessage st (sevLevelRef st "info") args

/-- Embedding of `enableLevel`: bitwise-OR the resolved bit into the mask. -/
def enableLevel (st : LogState) (level : LevelRef) : LogState :=
  { st with
    currentLevel := jsOr st.currentLevel (getLevelOrDefault level st.levels 0) }

/-- Embedding of `disableLevel`: bitwise-AND the negated resolved bit. -/
def disableLevel (st : LogState) (level : LevelRef) : LogState :=
  { st with
    currentLevel :=
      jsAnd st.currentLevel (jsNot (getLevelOrDefault level st.levels 0)) }

/-- Embedding of `getEnabledLevels`: test the 8 base severities in fixed
declaration order against the mask and collect the names that pass. -/
def getEnabledLevels (st : LogState) : List String :=
  (if jsAnd st.currentLevel ((alook st.levels "fatal").getD 0) != 0 then ["fatal"] else []) ++
  (if jsAnd st.currentLevel ((alook st.levels "error").getD 0) != 0 then ["error"] else []) ++
  (if jsAnd st.currentLevel ((alook st.levels "warn").getD 0) != 0 then ["warn"] else []) ++
  (if jsAnd st.currentLevel ((alook st.levels "info").getD 0) != 0 then ["info"] else []) ++
  (if jsAnd st.currentLevel ((alook st.levels "debug").getD 0) != 0 then ["debug"] else []) ++
  (if jsAnd st.currentLevel ((alook st.levels "verbose").getD 0) != 0 then ["verbose"] else []) ++
  (if jsAnd st.currentLevel ((alook st.levels "trace").getD 0) != 0 then ["trace"] else []) ++
  (if jsAnd st.currentLevel ((alook st.levels "silly").getD 0) != 0 then ["silly"] else [])

/-- Embedding of the `level` property setter: the written value is resolved
with the info entry as fallback before being stored. -/
def setLevel (st : LogState) (value : LevelRef) : LogState :=
  { st with
    currentLevel :=
      getLevelOrDefault value st.levels ((alook st.levels "info").getD 0) }

/-! ## Class-style logger state and operations (LazyLog)

The class stores its mask in the plain field `this.level`. The constructor
and enableLevel/disableLevel always store a number there, but a direct
property write stores the written value unchanged, so the field is modelled
as a LevelRef. Bitwise operators reading the field apply ToNumber followed
by ToInt32. -/

/-- Instance state of a LazyLog object. -/
structure CState where
  levels : List (String × Int)
  levelNames : List (Int × String)
  level : LevelRef
  logOverrides : List String
deriving DecidableEq, Repr

/-- ToNumber of the stored level field as a bitwise operand: a number is
itself, a string goes through string-to-number conversion with NaN
becoming 0 under ToInt32, and undefined (NaN) becomes 0. -/
def cLevelOperand (l : LevelRef) : Int :=
  match l with
  | .num n => n
  | .str s => (jsToNumber s).getD 0
  | .other => 0

/-- Embedding of the LazyLog constructor: the same table writes as makeLog,
but starting from the class static tables, which do not list the two
presets. The initial level is always a number. -/
def lazyLogInit (opts : Options) : CState :=
  let lv := insertAllS (presetWrites cStaticLevels opts) cStaticLevels
  { levels := lv
    levelNames := insertAllR (presetWrites cStaticLevels opts) cStaticLevelNames
    level := .num (getLevelOrDefault opts.level lv ((alook lv "info").getD 0))
    logOverrides := opts.logOverrides }

/-- Embedding of `LazyLog.shouldLog`: the strict `this.level === 0` check is
true only when the field holds the number 0; otherwise the resolved bit is
tested against the field coerced to a bitwise operand. -/
def cShouldLog (st : CState) (level : LevelRef) : Bool :=
  if st.level == .num 0 then false
  else jsAnd (cLevelOperand st.level) (getLevelOrDefault level st.levels 0) != 0

/-- Output dispatch name of the class `#log`, same shape as the
function-style dispatch. -/
def cDispatchName (st : CState) (level : LevelRef) : Option String :=
  match level with
  | .num v => rlook st.levelNames v
  | .str s => some s
  | .other => none

/-- Output function the class dispatch finds, if any. -/
def cSinkFor (st : CState) (level : LevelRef) : Option Sink :=
  (cDispatchName st level).bind (externalLogFor st.logOverrides)

/-- Embedding of the private `#log(level, ...args)`. -/
def cLogMessage (st : CState) (level : LevelRef) (args : List LogArg) :
    List Nat × List (Sink × List JVal) :=
  if cShouldLog st level then
    let processedArgs := args.map realizeArg
    match cSinkFor st level with
    | some fn => (invokedIds args, [(fn, processedArgs)])
    | none => (invokedIds args, [])
  else ([], [])

/-- Level value a class severity method dispatches (`this.levels.fatal`...). -/
def cSevLevelRef (st : CState) (name : String) : LevelRef :=
  match alook st.levels name with
  | some v => .num v
  | none => .other

/-- A class severity method call. -/
def cSevCall (st : CState) (name : String) (args : List LogArg) :
    List Nat × List (Sink × List JVal) :=
  cLogMessage st (cSevLevelRef st name) args

/-- The class default call form, targeting the info level. -/
def cDefaultCall (st : CState) (args : List LogArg) :
    List Nat × List (Sink × List JVal) :=
  cLogMessage st (cSevLevelRef st "info") args

/-- Embedding of the class `enableLevel`: `this.level |= flag` coerces the
field and stores the numeric result. -/
def cEnableLevel (st : CState) (level : LevelRef) : CState :=
  { st with
    level := .num
      (jsOr (cLevelOperand st.level) (getLevelOrDefault level st.levels 0)) }

/-- Embedding of the class `disableLevel`. -/
def cDisableLevel (st : CState) (level : LevelRef) : CState :=
  { st with
    level := .num
      (jsAnd (cLevelOperand st.level)
        (jsNot (getLevelOrDefault level st.levels 0))) }

/-- Embedding of the class `getEnabledLevels`. -/
def cGetEnabledLevels (st : CState) : List String :=
  (if jsAnd (cLevelOperand st.level) ((alook st.levels "fatal").getD 0) != 0 then ["fatal"] else []) ++
  (if jsAnd (cLevelOperand st.level) ((alook st.levels "error").getD 0) != 0 then ["error"] else []) ++
  (if jsAnd (cLevelOperand st.level) ((alook st.levels "warn").getD 0) != 0 then ["warn"] else []) ++
  (if jsAnd (cLevelOperand st.level) ((alook st.levels "info").getD 0) != 0 then ["info"] else []) ++
  (if jsAnd (cLevelOperand st.level) ((alook st.levels "debug").getD 0) != 0 then ["debug"] else []) ++
  (if jsAnd (cLevelOperand st.level) ((alook st.levels "verbose").getD 0) != 0 then ["verbose"] else []) ++
  (if jsAnd (cLevelOperand st.level) ((alook st.levels "trace").getD 0) != 0 then ["trace"] else []) ++
  (if jsAnd (cLevelOperand st.level) ((alook st.levels "silly").getD 0) != 0 then ["silly"] else [])

/-- The class has a plain field, not a setter: a direct write of the level
property stores the written value unchanged. -/
def cWriteLevel (st : CState) (value : LevelRef) : CState :=
  { st with level := value }

/-! ## Operation traces over a live logger

One alphabet of operations drives both implementations, producing for each
operation an observation (its return value), the identifiers of the thunks
it invoked, and the output-function invocations it performed. -/

/-- One operation of the runtime call surface. -/
inductive Op where
  | sev : String → List LogArg → Op
  | call : List LogArg → Op
  | shouldQ : LevelRef → Op
  | enable : LevelRef → Op
  | disable : LevelRef → Op
  | enabledQ : Op
  | readLevel : Op
  | writeLevel : LevelRef → Op
deriving DecidableEq, Repr

/-- Observation returned by one operation. -/
inductive Obs where
  | unitObs : Obs
  | boolObs : Bool → Obs
  | namesObs : List String → Obs
  | levelObs : LevelRef → Obs
deriving DecidableEq, Repr

/-- One step of the function-style logger. -/
def stepF (st : LogState) : Op → LogState × Obs × (List Nat × List (Sink × List JVal))
  | .sev name args => (st, .unitObs, sevCall st name args)
  | .call args => (st, .unitObs, defaultCall st args)
  | .shouldQ x => (st, .boolObs (shouldLog st x), ([], []))
  | .enable x => (enableLevel st x, .unitObs, ([], []))
  | .disable x => (disableLevel st x, .unitObs, ([], []))
  | .enabledQ => (st, .namesObs (getEnabledLevels st), ([], []))
  | .readLevel => (st, .levelObs (.num st.currentLevel), ([], []))
  | .writeLevel x => (setLevel st x, .unitObs, ([], []))

/-- One step of the class-style logger. -/
def stepC (st : CState) : Op → CState × Obs × (List Nat × List (Sink × List JVal))
  | .sev name args => (st, .unitObs, cSevCall st name args)
  | .call args => (st, .unitObs, cDefaultCall st args)
  | .shouldQ x => (st, .boolObs (cShouldLog st x), ([], []))
  | .enable x => (cEnableLevel st x, .unitObs, ([], []))
  | .disable x => (cDisableLevel st x, .unitObs, ([], []))
  | .enabledQ => (st, .namesObs (cGetEnabledLevels st), ([], []))
  | .readLevel => (st, .levelObs st.level, ([], []))
  | .writeLevel x => (cWriteLevel st x, .unitObs, ([], []))

/-- Run a trace on the function-style logger: final state, observation
sequence, invoked thunk identifiers, and output invocations, in order. -/
def runF (st : LogState) :
    List Op → LogState × List Obs × List Nat × List (Sink × List JVal)
  | [] => (st, [], [], [])
  | op :: rest =>
    let r := stepF st op
    let t := runF r.1 rest
    (t.1, r.2.1 :: t.2.1, r.2.2.1 ++ t.2.2.1, r.2.2.2 ++ t.2.2.2)

/-- Run a trace on the class-style logger. -/
def runC (st : CState) :
    List Op → CState × List Obs × List Nat × List (Sink × List JVal)
  | [] => (st, [], [], [])
  | op :: rest =>
    let r := stepC st op
    let t := runC r.1 rest
    (t.1, r.2.1 :: t.2.1, r.2.2.1 ++ t.2.2.1, r.2.2.2 ++ t.2.2.2)

/-- Traces whose level writes all write a number. -/
def numericWritesOk (trace : List Op) : Bool :=
  trace.all (fun op =>
    match op with
    | .writeLevel (.num _) => true
    | .writeLevel _ => false
    | _ => true)

/-- Options record with every field absent, as in `makeLog()` or
`new LazyLog()`. -/
def defaultOptions : Options :=
  { level := .other, presets := none, logOverrides := [] }

/-! ## Predicates used by the claim statements -/

/-- The canonical bit values of the 8 base severities. -/
def canonicalBasePairs : List (String × Int) :=
  [("fatal", 1), ("error", 2), ("warn", 4), ("info", 8), ("debug", 16),
   ("verbose", 32), ("trace", 64), ("silly", 128)]

/-- A level reference that is neither a known name, a numeric string, nor a
number, relative to a given table. -/
def levelUnresolvable (m : List (String × Int)) (x : LevelRef) : Prop :=
  x = .other ∨ ∃ s, x = .str s ∧ alook m s = none ∧ jsParseInt s = none

/-- The base-severity bit shape asserted by the specification of a name
table: the 8 base severities map to pairwise distinct powers of two
spanning 1 to 128 (that is, a permutation of the 8 such powers), their
bitwise OR is 255, none maps to 0 and all maps to 255. -/
def claimedBaseBits (m : List (String × Int)) : Prop :=
  ((baseNames.map (fun n => (alook m n).getD 0)).Perm
    [1, 2, 4, 8, 16, 32, 64, 128]) ∧
  (baseNames.map (fun n => (alook m n).getD 0)).foldr jsOr 0 = 255 ∧
  alook m "none" = some 0 ∧
  alook m "all" = some 255

/-- The 10 names the static table binds besides the two presets. -/
def reservedBaseKeys : List String := baseNames ++ ["none", "all"]

/-- Correspondence between a makeLog closure state and a LazyLog instance
state: the forward tables agree pointwise, the class level field holds the
number that is the function-style mask, the output overrides agree, and the
reverse tables resolve every value to the same output binding (the two maps
may disagree on a value only by a name that binds no output). -/
def Rel (stF : LogState) (stC : CState) : Prop :=
  (∀ k, alook stF.levels k = alook stC.levels k) ∧
  stC.level = .num stF.currentLevel ∧
  stC.logOverrides = stF.logOverrides ∧
  (∀ v, (rlook stF.levelNames v).bind (externalLogFor stF.logOverrides)
      = (rlook stC.levelNames v).bind (externalLogFor stF.logOverrides))

/-- Options supplying presets.production = 0, the boundary where the
JavaScript `||` merge treats the supplied value as absent. -/
def presetZeroOptions : Options :=
  { level := .other, presets := some [("production", 0)], logOverrides := [] }

/-- Options whose presets rebind the base severity name fatal. -/
def fatalOverrideOptions : Options :=
  { level := .other, presets := some [("fatal", 77)], logOverrides := [] }

/-- Trace that writes the string "warn" to the level property and then asks
shouldLog for warn: the two implementations answer differently. -/
def divergenceTrace : List Op :=
  [.writeLevel (.str "warn"), .shouldQ (.str "warn")]

/-- Logger with every level enabled (mask 255). -/
def stAll : LogState := setLevel (makeLog defaultOptions) (.str "all")

/-- Logger restricted to the error bit (mask 2). -/
def stErrorOnly : LogState :=
  makeLog { level := .str "error", presets := none, logOverrides := [] }

/-- Logger whose mask was set to the raw number 256, a value with no
reverse-map entry. -/
def st256 : LogState := setLevel (makeLog defaultOptions) (.num 256)

/-- Logger at the production mask 7. -/
def stMask7 : LogState := setLevel (makeLog defaultOptions) (.num 7)

/-- Logger with every level disabled (mask 0). -/
def stMask0 : LogState := setLevel (makeLog defaultOptions) (.str "none")

/-! ## Prototype-chain-aware property access

The tables and the externalLog object are plain JavaScript objects, so a
property read that misses every own property still finds the inherited
members of Object.prototype: for those names the read yields a function
(or, for the accessor, the prototype object), never undefined. `alook`,
`getLevelOrDefault` and `externalLogFor` above model own properties only,
which preserves every observable behaviour of the claims stated with them
(the inherited members coerce to NaN, hence 0, in every bitwise position);
the definitions below add the prototype chain where it is observable: in
the resolved value a level reference produces, and in the output-function
dispatch. -/

/-- The member names every plain object inherits from Object.prototype;
reading any of them on the tables of this program yields a non-undefined
value (a function, or the prototype object for the accessor). -/
def protoNames : List String :=
  ["constructor", "hasOwnProperty", "isPrototypeOf", "propertyIsEnumerable",
   "toLocaleString", "toString", "valueOf", "__proto__", "__defineGetter__",
   "__defineSetter__", "__lookupGetter__", "__lookupSetter__"]

/-- Result of a prototype-aware property read on a name table. -/
inductive PropVal where
  | ownVal : Int → PropVal
  | inheritedMember : String → PropVal
  | undefVal : PropVal
deriving DecidableEq, Repr

/-- Prototype-aware read `m[k]`: an own property wins; a miss falls through
to the inherited Object.prototype member when the key names one; only then
is the read undefined. -/
def jsGet (m : List (String × Int)) (k : String) : PropVal :=
  match alook m k with
  | some v => .ownVal v
  | none => if k ∈ protoNames then .inheritedMember k else .undefVal

/-- A resolved level as the real getLevelOrDefault can produce it: a number,
or an inherited Object.prototype member that leaked through the
`value !== undefined` check. -/
inductive ResolvedLevel where
  | num : Int → ResolvedLevel
  | protoMember : String → ResolvedLevel
deriving DecidableEq, Repr

/-- Prototype-faithful embedding of getLevelOrDefault: the name lookup is a
plain property read, so a string naming an inherited Object.prototype
member passes the `value !== undefined` test and the member itself is
returned; parseInt runs only when the read really is undefined. Total:
no input raises. -/
def getLevelOrDefaultP (level : LevelRef) (levelsMap : List (String × Int))
    (defaultValue : Int) : ResolvedLevel :=
  match level with
  | .str s =>
    match jsGet levelsMap s with
    | .ownVal value => .num value
    | .inheritedMember n => .protoMember n
    | .undefVal =>
      match jsParseInt s with
      | some parsed => .num parsed
      | none => .num defaultValue
  | .num n => .num n
  | .other => .num defaultValue

/-- What the output dispatch can find for a resolved name: an own binding
of the externalLog object (user callable or console default), or an
inherited Object.prototype member reached through the chain, which is
truthy, passes the `if (outputFn)` test, and is then invoked; in strict
mode such a detached invocation throws a TypeError for several members
(hasOwnProperty, valueOf, ...). -/
inductive OutputFn where
  | sink : Sink → OutputFn
  | protoCallable : String → OutputFn
deriving DecidableEq, Repr

/-- Prototype-faithful read of `externalLog[name]`: the 8 base severity
names are own properties; any other name falls through to the inherited
Object.prototype member when it names one, and only the remaining names
read as undefined. -/
def externalLogGetP (overrides : List String) (name : String) :
    Option OutputFn :=
  if name ∈ baseNames then
    some (.sink (if name ∈ overrides then .user name else defaultSink name))
  else if name ∈ protoNames then some (.protoCallable name)
  else none

/-- Output function the prototype-faithful dispatch finds, if any. -/
def dispatchSinkP (st : LogState) (level : LevelRef) : Option OutputFn :=
  (dispatchName st level).bind (externalLogGetP st.logOverrides)

/-- Prototype-faithful embedding of logMessage: as logMessage, but the
output lookup walks the prototype chain, so an inherited member can be
found and invoked. -/
def logMessageP (st : LogState) (level : LevelRef) (args : List LogArg) :
    List Nat × List (OutputFn × List JVal) :=
  if shouldLog st level then
    let processedArgs := args.map realizeArg
    match dispatchSinkP st level with
    | some fn => (invokedIds args, [(fn, processedArgs)])
    | none => (invokedIds args, [])
  else ([], [])

/-- Options of the C5 counterexample: rebinding fatal to 300 and
registering the preset name hasOwnProperty with the same value steers the
reverse map so that an enabled fatal call dispatches to the inherited
Object.prototype.hasOwnProperty. -/
def protoSinkOptions : Options :=
  { level := .num 300,
    presets := some [("fatal", 300), ("hasOwnProperty", 300)],
    logOverrides := [] }

/-- Logger whose mask was set to 2^31, a value outside the signed 32-bit
range that the level setter stores unchanged. -/
def stBigMask : LogState :=
  setLevel (makeLog defaultOptions) (.num 2147483648)

end LogLazy

namespace LogLazy

/-! ## Arithmetic facts about the JavaScript bitwise model -/

theorem toU32_lt (i : Int) : toU32 i < 4294967296 := by
  have h1 : (0 : Int) ≤ i % 4294967296 := Int.emod_nonneg i (by norm_num)
  have h2 : i % 4294967296 < 4294967296 := Int.emod_lt_of_pos i (by norm_num)
  simp only [toU32]
  omega

theorem land_ones32 (n : Nat) (h : n < 4294967296) :
    Nat.land n 4294967295 = n := by
  apply Nat.eq_of_testBit_eq
  intro i
  show (n &&& 4294967295).testBit i = n.testBit i
  rw [Nat.testBit_land]
  by_cases hi : i < 32
  · have ht : (4294967295 : Nat).testBit i = true := by
      have := Nat.testBit_two_pow_sub_one 32 i
      norm_num at this
      simp [this, hi]
    simp [ht]
  · have h32 : (2 : Nat) ^ 32 ≤ 2 ^ i :=
      Nat.pow_le_pow_right (by norm_num) (Nat.le_of_not_lt hi)
    have hbig : n < 2 ^ i := lt_of_lt_of_le (by norm_num [h]) h32
    simp [Nat.testBit_lt_two_pow hbig]

theorem jsAnd_zero_right (a : Int) : jsAnd a 0 = 0 := by
  have hz : toU32 0 = 0 := rfl
  simp only [jsAnd, hz]
  have : Nat.land (toU32 a) 0 = 0 := by
    show toU32 a &&& 0 = 0
    simp
  simp [this, ofU32]

theorem jsOr_zero_right (a : Int) (h : toI32 a = a) : jsOr a 0 = a := by
  have hz : toU32 0 = 0 := rfl
  simp only [jsOr, hz]
  have : Nat.lor (toU32 a) 0 = toU32 a := by
    show toU32 a ||| 0 = toU32 a
    simp
  rw [this]
  exact h

theorem jsNot_zero : jsNot 0 = -1 := by decide

theorem jsAnd_neg_one (a : Int) (h : toI32 a = a) : jsAnd a (-1) = a := by
  have hm : toU32 (-1) = 4294967295 := rfl
  simp only [jsAnd, hm]
  rw [land_ones32 (toU32 a) (toU32_lt a)]
  exact h

/-! ## Association-list lemmas -/

theorem alook_cons (p : String × Int) (l : List (String × Int)) (k : String) :
    alook (p :: l) k = if p.1 == k then some p.2 else alook l k := by
  simp only [alook, List.find?_cons]
  cases h : (p.1 == k) <;> simp [h]

theorem rlook_cons (p : Int × String) (l : List (Int × String)) (v : Int) :
    rlook (p :: l) v = if p.1 == v then some p.2 else rlook l v := by
  simp only [rlook, List.find?_cons]
  cases h : (p.1 == v) <;> simp [h]

theorem alook_append (l1 l2 : List (String × Int)) (k : String) :
    alook (l1 ++ l2) k = (alook l1 k).or (alook l2 k) := by
  induction l1 with
  | nil => simp [alook]
  | cons p t ih =>
    rw [List.cons_append, alook_cons, alook_cons]
    cases h : (p.1 == k) <;> simp [h, ih]

theorem rlook_append (l1 l2 : List (Int × String)) (v : Int) :
    rlook (l1 ++ l2) v = (rlook l1 v).or (rlook l2 v) := by
  induction l1 with
  | nil => simp [rlook]
  | cons p t ih =>
    rw [List.cons_append, rlook_cons, rlook_cons]
    cases h : (p.1 == v) <;> simp [h, ih]

theorem lastValFor_foldl (k : String) (ps : List (String × Int)) :
    ∀ a : Option Int,
      ps.foldl (fun acc p => if p.1 == k then some p.2 else acc) a
        = (lastValFor ps k).or a := by
  induction ps with
  | nil => intro a; simp [lastValFor]
  | cons p t ih =>
    intro a
    show t.foldl _ (if p.1 == k then some p.2 else a) = _
    rw [ih]
    have hr : lastValFor (p :: t) k
        = (lastValFor t k).or (if p.1 == k then some p.2 else none) := by
      show t.foldl _ (if p.1 == k then some p.2 else none) = _
      rw [ih]
    rw [hr]
    cases hl : lastValFor t k <;> cases hpk : (p.1 == k) <;>
      simp [hpk, Option.or]

theorem lastKeyFor_foldl (v : Int) (ps : List (String × Int)) :
    ∀ a : Option String,
      ps.foldl (fun acc p => if p.2 == v then some p.1 else acc) a
        = (lastKeyFor ps v).or a := by
  induction ps with
  | nil => intro a; simp [lastKeyFor]
  | cons p t ih =>
    intro a
    show t.foldl _ (if p.2 == v then some p.1 else a) = _
    rw [ih]
    have hr : lastKeyFor (p :: t) v
        = (lastKeyFor t v).or (if p.2 == v then some p.1 else none) := by
      show t.foldl _ (if p.2 == v then some p.1 else none) = _
      rw [ih]
    rw [hr]
    cases hl : lastKeyFor t v <;> cases hpv : (p.2 == v) <;>
      simp [hpv, Option.or]

theorem alook_insertAllS (ps b : List (String × Int)) (k : String) :
    alook (insertAllS ps b) k = (lastValFor ps k).or (alook b k) := by
  induction ps generalizing b with
  | nil => simp [insertAllS, lastValFor]
  | cons p t ih =>
    show alook (insertAllS t (p :: b)) k = _
    rw [ih, alook_cons]
    have hr : lastValFor (p :: t) k
        = (lastValFor t k).or (if p.1 == k then some p.2 else none) := by
      show t.foldl _ (if p.1 == k then some p.2 else none) = _
      rw [lastValFor_foldl]
    rw [hr]
    cases hl : lastValFor t k <;> cases hpk : (p.1 == k) <;>
      simp [hpk, Option.or]

theorem rlook_insertAllR (ps : List (String × Int))
    (b : List (Int × String)) (v : Int) :
    rlook (insertAllR ps b) v = (lastKeyFor ps v).or (rlook b v) := by
  induction ps generalizing b with
  | nil => simp [insertAllR, lastKeyFor]
  | cons p t ih =>
    show rlook (insertAllR t ((p.2, p.1) :: b)) v = _
    rw [ih, rlook_cons]
    have hr : lastKeyFor (p :: t) v
        = (lastKeyFor t v).or (if p.2 == v then some p.1 else none) := by
      show t.foldl _ (if p.2 == v then some p.1 else none) = _
      rw [lastKeyFor_foldl]
    rw [hr]
    cases hl : lastKeyFor t v <;> cases hpv : (p.2 == v) <;>
      simp [hpv, Option.or]

theorem lastValFor_eq_none (ps : List (String × Int)) (k : String)
    (h : ∀ p ∈ ps, (p.1 == k) = false) : lastValFor ps k = none := by
  induction ps with
  | nil => rfl
  | cons p t ih =>
    have hr : lastValFor (p :: t) k
        = (lastValFor t k).or (if p.1 == k then some p.2 else none) := by
      show t.foldl _ (if p.1 == k then some p.2 else none) = _
      rw [lastValFor_foldl]
    rw [hr, ih (fun q hq => h q (List.mem_cons_of_mem p hq)),
      h p (List.mem_cons_self p t)]
    rfl

/-- An unresolvable level reference resolves to the fallback. -/
theorem getLevelOrDefault_of_unresolvable (m : List (String × Int))
    (x : LevelRef) (d : Int) (h : levelUnresolvable m x) :
    getLevelOrDefault x m d = d := by
  rcases h with rfl | ⟨s, rfl, h1, h2⟩
  · rfl
  · simp [getLevelOrDefault, h1, h2]

/-! ## Claim theorems -/

/-- Claim C4 counterexample. The claim asserts that a string that is
neither a registered name nor parseable resolves to the fallback, but a
string naming an inherited Object.prototype member — here toString, which
is not in the table and not parseable — passes the `value !== undefined`
check and resolution returns the inherited member itself, not the
fallback 0. -/
theorem getLevelOrDefault_counterexample :
    alook staticLevels "toString" = none ∧
    jsParseInt "toString" = none ∧
    getLevelOrDefaultP (.str "toString") staticLevels 0
      = .protoMember "toString" ∧
    getLevelOrDefaultP (.str "toString") staticLevels 0 ≠ .num 0 := by
  refine ⟨by decide, by decide, by decide, by decide⟩

/-- Claim C4 as amended (proved). Level resolution is total with fallback,
except for the Object.prototype leak: a string exactly matching a
registered name resolves to the bound integer (a case-sensitive exact
match); a non-registered string naming an inherited Object.prototype
member resolves to that inherited member itself, not the fallback; a
non-registered, non-prototype string resolves to what parseInt makes of
it when that is not NaN, and to the fallback otherwise; a number is
returned unchanged; any other input resolves to the fallback. The
function is a total Lean function, so no input raises. -/
theorem getLevelOrDefault_semantics_amended (m : List (String × Int))
    (d : Int) :
    (∀ s v, alook m s = some v →
      getLevelOrDefaultP (.str s) m d = .num v) ∧
    (∀ s, alook m s = none → s ∈ protoNames →
      getLevelOrDefaultP (.str s) m d = .protoMember s) ∧
    (∀ s n, alook m s = none → s ∉ protoNames → jsParseInt s = some n →
      getLevelOrDefaultP (.str s) m d = .num n) ∧
    (∀ s, alook m s = none → s ∉ protoNames → jsParseInt s = none →
      getLevelOrDefaultP (.str s) m d = .num d) ∧
    (∀ n, getLevelOrDefaultP (.num n) m d = .num n) ∧
    (getLevelOrDefaultP .other m d = .num d) := by
  refine ⟨?_, ?_, ?_, ?_, ?_, rfl⟩
  · intro s v h; simp [getLevelOrDefaultP, jsGet, h]
  · intro s h1 h2; simp [getLevelOrDefaultP, jsGet, h1, h2]
  · intro s n h1 h2 h3; simp [getLevelOrDefaultP, jsGet, h1, h2, h3]
  · intro s h1 h2 h3; simp [getLevelOrDefaultP, jsGet, h1, h2, h3]
  · intro n; rfl

/-- Witness for C4 amended at concrete inputs: a known name, a prototype
member name, a numeric string, an unresolvable string, a raw number, and
a non-string non-number. -/
theorem getLevelOrDefault_semantics_amended_witness :
    (alook staticLevels "warn" = some 4 ∧
      getLevelOrDefaultP (.str "warn") staticLevels 0 = .num 4) ∧
    (alook staticLevels "hasOwnProperty" = none ∧
      getLevelOrDefaultP (.str "hasOwnProperty") staticLevels 0
        = .protoMember "hasOwnProperty") ∧
    (alook staticLevels "42" = none ∧ jsParseInt "42" = some 42 ∧
      getLevelOrDefaultP (.str "42") staticLevels 0 = .num 42) ∧
    (alook staticLevels "bogus" = none ∧ jsParseInt "bogus" = none ∧
      getLevelOrDefaultP (.str "bogus") staticLevels 0 = .num 0) ∧
    getLevelOrDefaultP (.num 512) staticLevels 0 = .num 512 ∧
    getLevelOrDefaultP .other staticLevels 0 = .num 0 := by
  refine ⟨⟨by decide, ?_⟩, ⟨by decide, ?_⟩, ⟨by decide, by decide, ?_⟩,
    ⟨by decide, by decide, ?_⟩, ?_, ?_⟩
  · exact (getLevelOrDefault_semantics_amended staticLevels 0).1 "warn" 4
      (by decide)
  · exact (getLevelOrDefault_semantics_amended staticLevels 0).2.1
      "hasOwnProperty" (by decide) (by decide)
  · exact (getLevelOrDefault_semantics_amended staticLevels 0).2.2.1 "42" 42
      (by decide) (by decide) (by decide)
  · exact (getLevelOrDefault_semantics_amended staticLevels 0).2.2.2.1
      "bogus" (by decide) (by decide) (by decide)
  · exact (getLevelOrDefault_semantics_amended staticLevels 0).2.2.2.2.1 512
  · exact (getLevelOrDefault_semantics_amended staticLevels 0).2.2.2.2.2

/-- Claim C1 (confirmed). Zero cost when disabled: when shouldLog of the
dispatched level is false, logMessage performs no thunk invocation and no
output invocation, for every argument list. Every severity method and the
default call form is logMessage at its dispatched level, and the state is
untouched because logMessage does not write any field. -/
theorem logArgs_not_evaluated_when_disabled (st : LogState)
    (level : LevelRef) (args : List LogArg)
    (h : shouldLog st level = false) :
    logMessage st level args = ([], []) := by
  simp [logMessage, h]

/-- Witness for C1: a logger at level error receiving an info call whose
second argument is a thunk that raises; nothing is invoked. -/
theorem logArgs_not_evaluated_when_disabled_witness :
    shouldLog stErrorOnly (sevLevelRef stErrorOnly "info") = false ∧
    logMessage stErrorOnly (sevLevelRef stErrorOnly "info")
      [.plain (.vstr "x"), .thunk 0 (.raise "boom")] = ([], []) :=
  ⟨by decide, logArgs_not_evaluated_when_disabled _ _ _ (by decide)⟩

/-- Claim C2 (confirmed). Enabled calls realize their arguments in original
order: every function-valued argument is invoked exactly once (the invoked
identifier list is the thunk identifiers in argument order), a raising
thunk is replaced in place by the diagnostic string, plain arguments pass
through unchanged, and the bound output function receives the realized
list with the original order and count, including the zero-argument case.
The realization is a total Lean function, so no exception reaches the
caller. -/
theorem enabled_call_realizes_arguments (st : LogState) (level : LevelRef)
    (args : List LogArg) (fn : Sink)
    (h : shouldLog st level = true) (hs : sinkFor st level = some fn) :
    logMessage st level args =
      (invokedIds args, [(fn, args.map realizeArg)]) ∧
    (args.map realizeArg).length = args.length ∧
    (∀ v, realizeArg (.plain v) = v) ∧
    (∀ id v, realizeArg (.thunk id (.ret v)) = v) ∧
    (∀ id m, realizeArg (.thunk id (.raise m)) =
      .vstr ("[Error evaluating log argument function: " ++ m ++ "]")) ∧
    (args = [] → logMessage st level args = ([], [(fn, [])])) := by
  refine ⟨by simp [logMessage, h, hs], List.length_map _ _,
    fun v => rfl, fun id v => rfl, fun id m => rfl, ?_⟩
  rintro rfl
  simp [logMessage, h, hs, invokedIds]

/-- Witness for C2, the thunk-failure-isolation scenario of the
specification: an enabled error call with a plain argument, a raising
thunk, and another plain argument produces one console.error invocation
with the diagnostic string in the middle position. -/
theorem enabled_call_realizes_arguments_witness :
    shouldLog stAll (.num 2) = true ∧
    sinkFor stAll (.num 2) = some .consoleError ∧
    logMessage stAll (.num 2)
        [.plain (.vstr "a"), .thunk 7 (.raise "boom"), .plain (.vstr "b")] =
      (invokedIds [.plain (.vstr "a"), .thunk 7 (.raise "boom"),
        .plain (.vstr "b")],
       [(.consoleError,
         [.plain (.vstr "a"), .thunk 7 (.raise "boom"),
          .plain (.vstr "b")].map realizeArg)]) :=
  ⟨by decide, by decide,
    (enabled_call_realizes_arguments stAll (.num 2) _ .consoleError
      (by decide) (by decide)).1⟩

/-- Claim C3 (confirmed). shouldLog semantics: false whenever the mask is
0; otherwise true exactly when the mask ANDed with the resolved level is
non-zero; an unresolvable reference always yields false without raising
(the function is total); with mask 255 every base severity passes and the
non-overlapping integer 512 does not. -/
theorem shouldLog_semantics (st : LogState) (x : LevelRef) :
    (st.currentLevel = 0 → shouldLog st x = false) ∧
    (shouldLog st x = true ↔
      (st.currentLevel ≠ 0 ∧
        jsAnd st.currentLevel (getLevelOrDefault x st.levels 0) ≠ 0)) ∧
    (levelUnresolvable st.levels x → shouldLog st x = false) ∧
    (st.currentLevel = 255 → shouldLog st (.num 512) = false) ∧
    (st.currentLevel = 255 →
      (∀ p ∈ canonicalBasePairs, alook st.levels p.1 = some p.2) →
      ∀ n ∈ baseNames, shouldLog st (.str n) = true) := by
  refine ⟨?_, ?_, ?_, ?_, ?_⟩
  · intro h; simp [shouldLog, h]
  · by_cases h0 : st.currentLevel = 0 <;> simp [shouldLog, h0, bne_iff_ne]
  · intro h
    rw [shouldLog, getLevelOrDefault_of_unresolvable st.levels x 0 h]
    simp [jsAnd_zero_right]
  · intro h
    have : jsAnd 255 512 = 0 := by decide
    simp [shouldLog, h, getLevelOrDefault, this]
  · intro h255 hcan n hn
    have hone : ∀ v : Int, alook st.levels n = some v → jsAnd 255 v ≠ 0 →
        shouldLog st (.str n) = true := by
      intro v hv hnz
      simp [shouldLog, h255, getLevelOrDefault, hv, hnz]
    simp only [baseNames, List.mem_cons, List.not_mem_nil, or_false] at hn
    rcases hn with rfl | rfl | rfl | rfl | rfl | rfl | rfl | rfl
    · exact hone 1 (hcan ("fatal", 1) (by decide)) (by decide)
    · exact hone 2 (hcan ("error", 2) (by decide)) (by decide)
    · exact hone 4 (hcan ("warn", 4) (by decide)) (by decide)
    · exact hone 8 (hcan ("info", 8) (by decide)) (by decide)
    · exact hone 16 (hcan ("debug", 16) (by decide)) (by decide)
    · exact hone 32 (hcan ("verbose", 32) (by decide)) (by decide)
    · exact hone 64 (hcan ("trace", 64) (by decide)) (by decide)
    · exact hone 128 (hcan ("silly", 128) (by decide)) (by decide)

/-- Witness for C3 at mask 255: the base severity debug passes and 512
does not, and an unresolvable string yields false. -/
theorem shouldLog_semantics_witness :
    shouldLog stAll (.num 512) = false ∧
    shouldLog stAll (.str "debug") = true ∧
    shouldLog stAll (.str "garbage") = false :=
  ⟨(shouldLog_semantics stAll (.num 512)).2.2.2.1 (by decide),
   (shouldLog_semantics stAll (.str "debug")).2.2.2.2 (by decide)
     (by decide) "debug" (by decide),
   (shouldLog_semantics stAll (.str "garbage")).2.2.1
     (Or.inr ⟨"garbage", rfl, by decide, by decide⟩)⟩

/-- Claim C5 counterexample. The claim asserts that an enabled call whose
resolved name has no bound output function is silently dropped with no
output function invoked; but only own properties of externalLog are the 8
base bindings — a resolved name that is an inherited Object.prototype
member is found through the prototype chain, is truthy, and is invoked.
Registering presets fatal = 300 and hasOwnProperty = 300 makes the
reverse map send the enabled fatal dispatch to hasOwnProperty, whose
inherited callable the call invokes (in strict mode that detached
invocation throws a TypeError to the caller). -/
theorem no_fallback_sink_counterexample :
    shouldLog (makeLog protoSinkOptions) (.num 300) = true ∧
    sevLevelRef (makeLog protoSinkOptions) "fatal" = .num 300 ∧
    rlook (makeLog protoSinkOptions).levelNames 300
      = some "hasOwnProperty" ∧
    "hasOwnProperty" ∉ baseNames ∧
    (logMessageP (makeLog protoSinkOptions) (.num 300)
        [.plain (.vstr "x")]).2
      = [(.protoCallable "hasOwnProperty", [.vstr "x"])] ∧
    (logMessageP (makeLog protoSinkOptions) (.num 300)
        [.plain (.vstr "x")]).2 ≠ [] := by
  refine ⟨by decide, by decide, by decide, by decide, by decide, by decide⟩

/-- Claim C5 as amended (proved). No fallback sink, except for the
Object.prototype leak: for an enabled call at a numeric level value, the
dispatch looks up the name registered for the value in the reverse map and
then the output function for that name. If no name is registered, or the
registered name is neither one of the 8 base severity names (the only own
bindings) nor an inherited Object.prototype member, the call is silently
dropped: no output function is invoked and nothing is thrown. A registered
name that is an inherited Object.prototype member, however, is found
through the prototype chain and invoked with the realized arguments. -/
theorem no_fallback_sink_amended (st : LogState) (v : Int)
    (args : List LogArg) (h : shouldLog st (.num v) = true) :
    ((rlook st.levelNames v = none ∨
      (∃ n, rlook st.levelNames v = some n ∧ n ∉ baseNames ∧
        n ∉ protoNames)) →
      dispatchSinkP st (.num v) = none ∧
      (logMessageP st (.num v) args).2 = []) ∧
    (∀ n, rlook st.levelNames v = some n → n ∉ baseNames →
      n ∈ protoNames →
      (logMessageP st (.num v) args).2
        = [(.protoCallable n, args.map realizeArg)]) := by
  constructor
  · intro hdrop
    have hs : dispatchSinkP st (.num v) = none := by
      rcases hdrop with h1 | ⟨n, h1, h2, h3⟩
      · simp [dispatchSinkP, dispatchName, h1]
      · simp [dispatchSinkP, dispatchName, h1, externalLogGetP, h2, h3]
    exact ⟨hs, by simp [logMessageP, h, hs]⟩
  · intro n h1 h2 h3
    have hs : dispatchSinkP st (.num v) = some (.protoCallable n) := by
      simp [dispatchSinkP, dispatchName, h1, externalLogGetP, h2, h3]
    simp [logMessageP, h, hs]

/-- Witness for C5 amended: mask 256 with a call at level 256 (no
reverse-map entry) realizes its thunk but emits nothing. -/
theorem no_fallback_sink_amended_witness :
    shouldLog st256 (.num 256) = true ∧
    rlook st256.levelNames 256 = none ∧
    dispatchSinkP st256 (.num 256) = none ∧
    (logMessageP st256 (.num 256) [.thunk 1 (.ret (.vstr "y"))]).2 = [] :=
  ⟨by decide, by decide,
    ((no_fallback_sink_amended st256 256 [.thunk 1 (.ret (.vstr "y"))]
      (by decide)).1 (Or.inl (by decide))).1,
    ((no_fallback_sink_amended st256 256 [.thunk 1 (.ret (.vstr "y"))]
      (by decide)).1 (Or.inl (by decide))).2⟩

/-- Claim C7 counterexample. The claim asserts unconditionally that an
unresolvable reference makes either mutation a no-op that leaves the mask
unchanged, but the mask is not confined to 32 bits: the level setter
stores the raw number 2^31 unchanged, and enableLevel with an
unresolvable reference then executes the bitwise OR with 0 whose ToInt32
coercion stores -2^31 — the readable level property changes. -/
theorem mask_mutation_counterexample :
    stBigMask.currentLevel = 2147483648 ∧
    getLevelOrDefault (.str "garbage") stBigMask.levels 0 = 0 ∧
    (enableLevel stBigMask (.str "garbage")).currentLevel = -2147483648 ∧
    (enableLevel stBigMask (.str "garbage")).currentLevel
      ≠ stBigMask.currentLevel := by
  refine ⟨by decide, by decide, by decide, by decide⟩

/-- Claim C7 as amended (proved). Mask mutation: enableLevel ORs the
resolved bit into the mask and disableLevel ANDs its complement out (both
through the ToInt32 coercion of the JavaScript operators); an unresolvable
reference resolves to 0, and when the stored mask is a value the ToInt32
coercion fixes — every signed 32-bit value, in particular every mask built
from the level bits — either call leaves the mask unchanged; a mask
outside that range, reachable through the level setter, is truncated by
the coercion even though the resolved bit is 0 (see the counterexample).
The two concrete mask computations of the specification hold. -/
theorem mask_mutation_semantics (st : LogState) (x : LevelRef) :
    (enableLevel st x).currentLevel =
      jsOr st.currentLevel (getLevelOrDefault x st.levels 0) ∧
    (disableLevel st x).currentLevel =
      jsAnd st.currentLevel (jsNot (getLevelOrDefault x st.levels 0)) ∧
    (levelUnresolvable st.levels x → getLevelOrDefault x st.levels 0 = 0) ∧
    (getLevelOrDefault x st.levels 0 = 0 →
      toI32 st.currentLevel = st.currentLevel →
      (enableLevel st x).currentLevel = st.currentLevel ∧
      (disableLevel st x).currentLevel = st.currentLevel) ∧
    (enableLevel (enableLevel stMask0 (.str "warn"))
      (.str "error")).currentLevel = 6 ∧
    (disableLevel stMask7 (.str "error")).currentLevel = 5 := by
  refine ⟨rfl, rfl,
    getLevelOrDefault_of_unresolvable st.levels x 0, ?_, by decide, by decide⟩
  intro h0 h32
  constructor
  · show jsOr st.currentLevel (getLevelOrDefault x st.levels 0)
      = st.currentLevel
    rw [h0]
    exact jsOr_zero_right st.currentLevel h32
  · show jsAnd st.currentLevel (jsNot (getLevelOrDefault x st.levels 0))
      = st.currentLevel
    rw [h0, jsNot_zero]
    exact jsAnd_neg_one st.currentLevel h32

/-- Witness for C7: an unresolvable reference leaves the mask 7 logger
unchanged through both mutations. -/
theorem mask_mutation_semantics_witness :
    getLevelOrDefault (.str "garbage") stMask7.levels 0 = 0 ∧
    toI32 stMask7.currentLevel = stMask7.currentLevel ∧
    (enableLevel stMask7 (.str "garbage")).currentLevel =
      stMask7.currentLevel ∧
    (disableLevel stMask7 (.str "garbage")).currentLevel =
      stMask7.currentLevel :=
  ⟨by decide, by decide,
    ((mask_mutation_semantics stMask7 (.str "garbage")).2.2.2.1
      (by decide) (by decide)).1,
    ((mask_mutation_semantics stMask7 (.str "garbage")).2.2.2.1
      (by decide) (by decide)).2⟩

/-- Claim C8 (confirmed). Active-level enumeration: getEnabledLevels is
the filter of the 8 base severity names, in their fixed declaration order,
by the test mask AND bound-bit non-zero; it therefore never contains a
preset or custom name; when the base names carry their canonical bits the
filter is by the canonical bit, and on mask 7 the result is exactly fatal,
error, warn. -/
theorem enabled_levels_enumeration (st : LogState) :
    getEnabledLevels st = baseNames.filter
      (fun n => jsAnd st.currentLevel ((alook st.levels n).getD 0) != 0) ∧
    (∀ n, n ∈ getEnabledLevels st → n ∈ baseNames) ∧
    ((∀ n v, (n, v) ∈ canonicalBasePairs → alook st.levels n = some v) →
      getEnabledLevels st = baseNames.filter
        (fun n =>
          jsAnd st.currentLevel ((alook canonicalBasePairs n).getD 0) != 0)) ∧
    (st.currentLevel = 7 →
      (∀ n v, (n, v) ∈ canonicalBasePairs → alook st.levels n = some v) →
      getEnabledLevels st = ["fatal", "error", "warn"]) := by
  have hfca : ∀ (a : String) (l : List String) (p : String → Bool),
      List.filter p (a :: l) = (if p a then [a] else []) ++ List.filter p l := by
    intro a l p
    cases h : p a <;> simp [List.filter_cons, h]
  have hfe : getEnabledLevels st = baseNames.filter
      (fun n => jsAnd st.currentLevel ((alook st.levels n).getD 0) != 0) := by
    simp only [getEnabledLevels, baseNames, hfca, List.filter_nil,
      List.append_nil, List.append_assoc]
  have hc3 : (∀ n v, (n, v) ∈ canonicalBasePairs → alook st.levels n = some v) →
      getEnabledLevels st = baseNames.filter
        (fun n =>
          jsAnd st.currentLevel ((alook canonicalBasePairs n).getD 0) != 0) := by
    intro hcan
    rw [hfe]
    apply List.filter_congr
    intro n hn
    simp only [baseNames, List.mem_cons, List.not_mem_nil, or_false] at hn
    rcases hn with rfl | rfl | rfl | rfl | rfl | rfl | rfl | rfl
    · rw [hcan "fatal" 1 (by decide),
        (by decide : alook canonicalBasePairs "fatal" = some 1)]
    · rw [hcan "error" 2 (by decide),
        (by decide : alook canonicalBasePairs "error" = some 2)]
    · rw [hcan "warn" 4 (by decide),
        (by decide : alook canonicalBasePairs "warn" = some 4)]
    · rw [hcan "info" 8 (by decide),
        (by decide : alook canonicalBasePairs "info" = some 8)]
    · rw [hcan "debug" 16 (by decide),
        (by decide : alook canonicalBasePairs "debug" = some 16)]
    · rw [hcan "verbose" 32 (by decide),
        (by decide : alook canonicalBasePairs "verbose" = some 32)]
    · rw [hcan "trace" 64 (by decide),
        (by decide : alook canonicalBasePairs "trace" = some 64)]
    · rw [hcan "silly" 128 (by decide),
        (by decide : alook canonicalBasePairs "silly" = some 128)]
  refine ⟨hfe, ?_, hc3, ?_⟩
  · intro n hn
    rw [hfe] at hn
    exact (List.mem_filter.mp hn).1
  · intro h7 hcan
    rw [hc3 hcan]
    simp only [h7]
    decide

/-- Witness for C8: the default logger at mask 7 enumerates exactly fatal,
error, warn. -/
theorem enabled_levels_enumeration_witness :
    stMask7.currentLevel = 7 ∧
    getEnabledLevels stMask7 = ["fatal", "error", "warn"] :=
  ⟨by decide,
    (enabled_levels_enumeration stMask7).2.2.2 (by decide)
      (by intro n v hv; fin_cases hv <;> decide)⟩

/-! ## Lemmas about the construction write sequence -/

theorem lastValFor_cons (p : String × Int) (t : List (String × Int))
    (k : String) :
    lastValFor (p :: t) k
      = (lastValFor t k).or (if p.1 == k then some p.2 else none) := by
  show t.foldl _ (if p.1 == k then some p.2 else none) = _
  rw [lastValFor_foldl]

theorem lastKeyFor_cons (p : String × Int) (t : List (String × Int))
    (v : Int) :
    lastKeyFor (p :: t) v
      = (lastKeyFor t v).or (if p.2 == v then some p.1 else none) := by
  show t.foldl _ (if p.2 == v then some p.1 else none) = _
  rw [lastKeyFor_foldl]

theorem customPresets_key_ne (ps : List (String × Int)) :
    ∀ p ∈ customPresets ps,
      (p.1 == "production") = false ∧ (p.1 == "development") = false := by
  intro p hp
  have h := (List.mem_filter.mp hp).2
  rw [Bool.and_eq_true] at h
  exact ⟨beq_eq_false_iff_ne.mpr (bne_iff_ne.mp h.1),
    beq_eq_false_iff_ne.mpr (bne_iff_ne.mp h.2)⟩

theorem lastValFor_presetWrites_production (base : List (String × Int))
    (opts : Options) :
    lastValFor (presetWrites base opts) "production"
      = some (productionValue base opts) := by
  show lastValFor (("production", productionValue base opts) ::
    ("development", developmentValue base opts) ::
      customPresets (opts.presets.getD [])) "production" = _
  rw [lastValFor_cons, lastValFor_cons,
    lastValFor_eq_none _ _ (fun p hp => (customPresets_key_ne _ p hp).1)]
  rfl

theorem lastValFor_presetWrites_development (base : List (String × Int))
    (opts : Options) :
    lastValFor (presetWrites base opts) "development"
      = some (developmentValue base opts) := by
  show lastValFor (("production", productionValue base opts) ::
    ("development", developmentValue base opts) ::
      customPresets (opts.presets.getD [])) "development" = _
  rw [lastValFor_cons, lastValFor_cons,
    lastValFor_eq_none _ _ (fun p hp => (customPresets_key_ne _ p hp).2)]
  rfl

theorem lastValFor_of_mem_nodup :
    ∀ (km : List (String × Int)) (k : String) (v : Int),
      (km.map Prod.fst).Nodup → (k, v) ∈ km → lastValFor km k = some v := by
  intro km
  induction km with
  | nil => intro k v _ h; cases h
  | cons p t ih =>
    intro k v hnd hmem
    rw [lastValFor_cons]
    rcases List.mem_cons.mp hmem with heq | ht
    · subst heq
      have hnone : lastValFor t k = none := by
        apply lastValFor_eq_none
        intro q hq
        have : k ∉ t.map Prod.fst := by
          simpa using (List.nodup_cons.mp hnd).1
        exact beq_eq_false_iff_ne.mpr
          (fun hqk => this (hqk ▸ List.mem_map_of_mem Prod.fst hq))
      rw [hnone]
      simp
    · rw [ih k v (List.nodup_cons.mp hnd).2 ht]
      simp

theorem jsOrDefault_of_ne_zero (v d : Int) (h : v ≠ 0) :
    jsOrDefault (some v) d = v := by
  simp [jsOrDefault, h]

theorem lastValFor_presetWrites_custom (base : List (String × Int))
    (opts : Options) (k : String) (v : Int)
    (hcust : lastValFor (customPresets (opts.presets.getD [])) k = some v) :
    lastValFor (presetWrites base opts) k = some v := by
  show lastValFor (("production", productionValue base opts) ::
    ("development", developmentValue base opts) ::
      customPresets (opts.presets.getD [])) k = some v
  rw [lastValFor_cons, lastValFor_cons, hcust]
  simp [Option.or]

/-- Claim C6 counterexample. The claim asserts that a supplied
presets.production value replaces the default entirely; at the supplied
value 0 the construction keeps the default 7 instead (JavaScript `||`
treats 0 as absent), so the claim as stated is false. -/
theorem registry_presets_counterexample :
    alook (makeLog presetZeroOptions).levels "production" = some 7 ∧
    alook (makeLog presetZeroOptions).levels "production" ≠ some 0 := by
  constructor
  · decide
  · decide

/-- Claim C6 as amended (proved). Registry construction with presets:
production is bound to the caller's value when supplied and non-zero,
and to the default 7 when absent or supplied as the falsy 0; development
likewise with default 31; every other presets key (with the distinct keys
a JavaScript object guarantees) is added bound to its integer; the reverse
map resolves a value to the name of the last write carrying it, with no
collision error; and the generic custom-preset loop processes no entry
named production or development. -/
theorem registry_presets_semantics (opts : Options)
    (ps : List (String × Int)) (hps : opts.presets = some ps)
    (hnd : (ps.map Prod.fst).Nodup) :
    (∀ v, alook ps "production" = some v → v ≠ 0 →
      alook (makeLog opts).levels "production" = some v) ∧
    ((alook ps "production" = none ∨ alook ps "production" = some 0) →
      alook (makeLog opts).levels "production" = some 7) ∧
    (∀ v, alook ps "development" = some v → v ≠ 0 →
      alook (makeLog opts).levels "development" = some v) ∧
    ((alook ps "development" = none ∨ alook ps "development" = some 0) →
      alook (makeLog opts).levels "development" = some 31) ∧
    (∀ k v, (k, v) ∈ ps → k ≠ "production" → k ≠ "development" →
      alook (makeLog opts).levels k = some v) ∧
    (∀ v k, lastKeyFor (presetWrites staticLevels opts) v = some k →
      rlook (makeLog opts).levelNames v = some k) ∧
    (∀ p ∈ customPresets (opts.presets.getD []),
      p.1 ≠ "production" ∧ p.1 ≠ "development") := by
  have hpv : productionValue staticLevels opts
      = jsOrDefault (alook ps "production") 7 := by
    rw [productionValue, hps]
    rfl
  have hdv : developmentValue staticLevels opts
      = jsOrDefault (alook ps "development") 31 := by
    rw [developmentValue, hps]
    rfl
  have hlevels : ∀ k, alook (makeLog opts).levels k
      = (lastValFor (presetWrites staticLevels opts) k).or
          (alook staticLevels k) := by
    intro k
    exact alook_insertAllS _ _ k
  refine ⟨?_, ?_, ?_, ?_, ?_, ?_, ?_⟩
  · intro v hv hvz
    rw [hlevels, lastValFor_presetWrites_production, hpv, hv,
      jsOrDefault_of_ne_zero v 7 hvz]
    rfl
  · intro hd
    rw [hlevels, lastValFor_presetWrites_production, hpv]
    rcases hd with hd | hd <;> rw [hd] <;> rfl
  · intro v hv hvz
    rw [hlevels, lastValFor_presetWrites_development, hdv, hv,
      jsOrDefault_of_ne_zero v 31 hvz]
    rfl
  · intro hd
    rw [hlevels, lastValFor_presetWrites_development, hdv]
    rcases hd with hd | hd <;> rw [hd] <;> rfl
  · intro k v hmem h1 h2
    have hmemc : (k, v) ∈ customPresets ps :=
      List.mem_filter.mpr ⟨hmem, by simp [bne_iff_ne, h1, h2]⟩
    have hndc : ((customPresets ps).map Prod.fst).Nodup :=
      hnd.sublist ((List.filter_sublist ps).map Prod.fst)
    have hcust :
        lastValFor (customPresets (opts.presets.getD [])) k = some v := by
      rw [hps]
      exact lastValFor_of_mem_nodup _ k v hndc hmemc
    rw [hlevels, lastValFor_presetWrites_custom staticLevels opts k v hcust]
    rfl
  · intro v k hk
    show rlook (insertAllR (presetWrites staticLevels opts)
      staticLevelNames) v = some k
    rw [rlook_insertAllR, hk]
    rfl
  · intro p hp
    have h := customPresets_key_ne _ p hp
    exact ⟨beq_eq_false_iff_ne.mp h.1, beq_eq_false_iff_ne.mp h.2⟩

/-- Witness for C6 amended: presets supplying production 5 and a custom
name mine 9 land in both tables as described. -/
theorem registry_presets_semantics_witness :
    alook (makeLog ⟨.other, some [("production", 5), ("mine", 9)],
      []⟩).levels "production" = some 5 ∧
    alook (makeLog ⟨.other, some [("production", 5), ("mine", 9)],
      []⟩).levels "mine" = some 9 ∧
    rlook (makeLog ⟨.other, some [("production", 5), ("mine", 9)],
      []⟩).levelNames 9 = some "mine" := by
  refine ⟨?_, ?_, ?_⟩
  · exact (registry_presets_semantics _ [("production", 5), ("mine", 9)]
      rfl (by decide)).1 5 (by decide) (by decide)
  · exact (registry_presets_semantics _ [("production", 5), ("mine", 9)]
      rfl (by decide)).2.2.2.2.1 "mine" 9 (by decide) (by decide) (by decide)
  · exact (registry_presets_semantics _ [("production", 5), ("mine", 9)]
      rfl (by decide)).2.2.2.2.2.1 9 "mine" (by decide)

/-! ## Table immutability under operations -/

theorem runF_levels : ∀ (trace : List Op) (st : LogState),
    (runF st trace).1.levels = st.levels := by
  intro trace
  induction trace with
  | nil => intro st; rfl
  | cons op rest ih =>
    intro st
    show (runF (stepF st op).1 rest).1.levels = st.levels
    rw [ih]
    cases op <;> rfl

theorem runC_levels : ∀ (trace : List Op) (st : CState),
    (runC st trace).1.levels = st.levels := by
  intro trace
  induction trace with
  | nil => intro st; rfl
  | cons op rest ih =>
    intro st
    show (runC (stepC st op).1 rest).1.levels = st.levels
    rw [ih]
    cases op <;> rfl

/-! ## Lookups in constructed tables at reserved names -/

theorem alook_insertAll_reserved (base : List (String × Int))
    (opts : Options)
    (hres : ∀ p ∈ opts.presets.getD [], p.1 ∉ reservedBaseKeys)
    (k : String) (hk : k ∈ reservedBaseKeys) :
    alook (insertAllS (presetWrites base opts) base) k = alook base k := by
  rw [alook_insertAllS]
  have hnone : lastValFor (presetWrites base opts) k = none := by
    apply lastValFor_eq_none
    intro p hp
    have hp' : p ∈ ("production", productionValue base opts) ::
        ("development", developmentValue base opts) ::
          customPresets (opts.presets.getD []) := hp
    rcases List.mem_cons.mp hp' with rfl | hp2
    · apply beq_eq_false_iff_ne.mpr
      intro h
      rw [show (("production", productionValue base opts).1 : String)
        = "production" from rfl] at h
      rw [← h] at hk
      exact absurd hk (by decide)
    · rcases List.mem_cons.mp hp2 with rfl | hp3
      · apply beq_eq_false_iff_ne.mpr
        intro h
        rw [show (("development", developmentValue base opts).1 : String)
          = "development" from rfl] at h
        rw [← h] at hk
        exact absurd hk (by decide)
      · apply beq_eq_false_iff_ne.mpr
        intro h
        have hmem : p ∈ opts.presets.getD [] := (List.mem_filter.mp hp3).1
        have : p.1 ∈ reservedBaseKeys := by rw [h]; exact hk
        exact absurd this (hres p hmem)
  rw [hnone]
  rfl

theorem alook_makeLog_reserved (opts : Options)
    (hres : ∀ p ∈ opts.presets.getD [], p.1 ∉ reservedBaseKeys)
    (k : String) (hk : k ∈ reservedBaseKeys) :
    alook (makeLog opts).levels k = alook staticLevels k :=
  alook_insertAll_reserved staticLevels opts hres k hk

theorem alook_lazyLogInit_reserved (opts : Options)
    (hres : ∀ p ∈ opts.presets.getD [], p.1 ∉ reservedBaseKeys)
    (k : String) (hk : k ∈ reservedBaseKeys) :
    alook (lazyLogInit opts).levels k = alook cStaticLevels k :=
  alook_insertAll_reserved cStaticLevels opts hres k hk

/-- Claim C9 counterexample. The claim quantifies over every options
record, but a presets entry may rebind a base severity name: with presets
fatal 77 the constructed table maps fatal to 77, which is not a power of
two, so the claimed invariant fails. -/
theorem base_bits_invariant_counterexample :
    alook (makeLog fatalOverrideOptions).levels "fatal" = some 77 ∧
    ¬ claimedBaseBits (makeLog fatalOverrideOptions).levels := by
  constructor
  · decide
  · simp only [claimedBaseBits]
    decide

/-- Claim C9 as amended (proved). For every options record whose presets
keys avoid the 10 reserved static names (the 8 base severities plus none
and all), and after any sequence of operations, the name table of either
implementation maps the 8 base severities to pairwise distinct powers of
two spanning 1 to 128 whose bitwise OR is 255, maps none to 0 and all to
255; operations never modify the table. -/
theorem base_bits_invariant_amended (opts : Options) (trace : List Op)
    (hres : ∀ p ∈ opts.presets.getD [], p.1 ∉ reservedBaseKeys) :
    claimedBaseBits (runF (makeLog opts) trace).1.levels ∧
    claimedBaseBits (runC (lazyLogInit opts) trace).1.levels := by
  rw [runF_levels, runC_levels]
  have hF : ∀ k v, k ∈ reservedBaseKeys → alook staticLevels k = some v →
      alook (makeLog opts).levels k = some v := by
    intro k v hk hv
    rw [alook_makeLog_reserved opts hres k hk]
    exact hv
  have hC : ∀ k v, k ∈ reservedBaseKeys → alook cStaticLevels k = some v →
      alook (lazyLogInit opts).levels k = some v := by
    intro k v hk hv
    rw [alook_lazyLogInit_reserved opts hres k hk]
    exact hv
  constructor
  · refine ⟨?_, ?_, hF "none" 0 (by decide) (by decide),
      hF "all" 255 (by decide) (by decide)⟩
    · simp only [baseNames, List.map_cons, List.map_nil,
        hF "fatal" 1 (by decide) (by decide),
        hF "error" 2 (by decide) (by decide),
        hF "warn" 4 (by decide) (by decide),
        hF "info" 8 (by decide) (by decide),
        hF "debug" 16 (by decide) (by decide),
        hF "verbose" 32 (by decide) (by decide),
        hF "trace" 64 (by decide) (by decide),
        hF "silly" 128 (by decide) (by decide)]
      decide
    · simp only [baseNames, List.map_cons, List.map_nil,
        hF "fatal" 1 (by decide) (by decide),
        hF "error" 2 (by decide) (by decide),
        hF "warn" 4 (by decide) (by decide),
        hF "info" 8 (by decide) (by decide),
        hF "debug" 16 (by decide) (by decide),
        hF "verbose" 32 (by decide) (by decide),
        hF "trace" 64 (by decide) (by decide),
        hF "silly" 128 (by decide) (by decide)]
      decide
  · refine ⟨?_, ?_, hC "none" 0 (by decide) (by decide),
      hC "all" 255 (by decide) (by decide)⟩
    · simp only [baseNames, List.map_cons, List.map_nil,
        hC "fatal" 1 (by decide) (by decide),
        hC "error" 2 (by decide) (by decide),
        hC "warn" 4 (by decide) (by decide),
        hC "info" 8 (by decide) (by decide),
        hC "debug" 16 (by decide) (by decide),
        hC "verbose" 32 (by decide) (by decide),
        hC "trace" 64 (by decide) (by decide),
        hC "silly" 128 (by decide) (by decide)]
      decide
    · simp only [baseNames, List.map_cons, List.map_nil,
        hC "fatal" 1 (by decide) (by decide),
        hC "error" 2 (by decide) (by decide),
        hC "warn" 4 (by decide) (by decide),
        hC "info" 8 (by decide) (by decide),
        hC "debug" 16 (by decide) (by decide),
        hC "verbose" 32 (by decide) (by decide),
        hC "trace" 64 (by decide) (by decide),
        hC "silly" 128 (by decide) (by decide)]
      decide

/-- Witness for C9 amended: a logger with a safe custom preset keeps the
canonical base bits after an enable operation. -/
theorem base_bits_invariant_amended_witness :
    claimedBaseBits (runF (makeLog ⟨.other, some [("mine", 3)], []⟩)
      [.enable (.str "mine")]).1.levels :=
  (base_bits_invariant_amended ⟨.other, some [("mine", 3)], []⟩
    [.enable (.str "mine")] (by decide)).1

/-! ## Correspondence of the two constructors -/

theorem presetWrites_static_eq (opts : Options) :
    presetWrites staticLevels opts = presetWrites cStaticLevels opts := rfl

theorem getLevelOrDefault_congr (x : LevelRef) (m1 m2 : List (String × Int))
    (d : Int) (h : ∀ k, alook m1 k = alook m2 k) :
    getLevelOrDefault x m1 d = getLevelOrDefault x m2 d := by
  cases x <;> simp [getLevelOrDefault, h]

theorem alook_static_off (k : String) (h1 : k ≠ "production")
    (h2 : k ≠ "development") :
    alook staticLevels k = alook cStaticLevels k := by
  rw [show staticLevels
    = cStaticLevels ++ [("production", 7), ("development", 31)] from rfl,
    alook_append]
  cases h : alook cStaticLevels k with
  | some v => simp [Option.or]
  | none =>
    simp only [Option.none_or]
    rw [alook_cons, alook_cons]
    simp [beq_eq_false_iff_ne.mpr (Ne.symm h1),
      beq_eq_false_iff_ne.mpr (Ne.symm h2), alook]

theorem levels_look_eq (opts : Options) (k : String) :
    alook (makeLog opts).levels k = alook (lazyLogInit opts).levels k := by
  show alook (insertAllS (presetWrites staticLevels opts) staticLevels) k
    = alook (insertAllS (presetWrites cStaticLevels opts) cStaticLevels) k
  rw [alook_insertAllS, alook_insertAllS, presetWrites_static_eq]
  cases hl : lastValFor (presetWrites cStaticLevels opts) k with
  | some v => simp [Option.or]
  | none =>
    simp only [Option.none_or]
    have h1 : k ≠ "production" := by
      intro hk
      subst hk
      rw [lastValFor_presetWrites_production] at hl
      cases hl
    have h2 : k ≠ "development" := by
      intro hk
      subst hk
      rw [lastValFor_presetWrites_development] at hl
      cases hl
    exact alook_static_off k h1 h2

theorem externalLogFor_production (ov : List String) :
    externalLogFor ov "production" = none := rfl

theorem externalLogFor_development (ov : List String) :
    externalLogFor ov "development" = none := rfl

theorem rlook_static_sink (ov : List String) (v : Int) :
    (rlook staticLevelNames v).bind (externalLogFor ov)
      = (rlook cStaticLevelNames v).bind (externalLogFor ov) := by
  rw [show staticLevelNames
    = cStaticLevelNames ++ [(31, "development"), (7, "production")] from rfl,
    rlook_append]
  cases h : rlook cStaticLevelNames v with
  | some n => simp [Option.or]
  | none =>
    simp only [Option.none_or]
    rw [rlook_cons, rlook_cons]
    by_cases h31 : ((31 : Int) == v) = true
    · simp [h31, externalLogFor_development]
    · simp only [eq_self_iff_true, Bool.not_eq_true] at h31
      by_cases h7 : ((7 : Int) == v) = true
      · simp [h31, h7, externalLogFor_production]
      · simp only [Bool.not_eq_true] at h7
        simp [h31, h7, rlook]

/-- The constructed states of the two implementations correspond. -/
theorem rel_init (opts : Options) : Rel (makeLog opts) (lazyLogInit opts) := by
  refine ⟨levels_look_eq opts, ?_, rfl, ?_⟩
  · show LevelRef.num _ = LevelRef.num _
    congr 1
    have htab : ∀ k,
        alook (lazyLogInit opts).levels k = alook (makeLog opts).levels k :=
      fun k => (levels_look_eq opts k).symm
    have hd : (alook (lazyLogInit opts).levels "info").getD 0
        = (alook (makeLog opts).levels "info").getD 0 := by
      rw [htab]
    show getLevelOrDefault opts.level (lazyLogInit opts).levels
        ((alook (lazyLogInit opts).levels "info").getD 0)
      = getLevelOrDefault opts.level (makeLog opts).levels
        ((alook (makeLog opts).levels "info").getD 0)
    rw [hd]
    exact getLevelOrDefault_congr opts.level _ _ _ htab
  · intro v
    show (rlook (insertAllR (presetWrites staticLevels opts)
        staticLevelNames) v).bind (externalLogFor opts.logOverrides)
      = (rlook (insertAllR (presetWrites cStaticLevels opts)
          cStaticLevelNames) v).bind (externalLogFor opts.logOverrides)
    rw [rlook_insertAllR, rlook_insertAllR, presetWrites_static_eq]
    cases hl : lastKeyFor (presetWrites cStaticLevels opts) v with
    | some n => simp [Option.or]
    | none =>
      simp only [Option.none_or]
      exact rlook_static_sink opts.logOverrides v

/-! ## Step-level correspondence under the Rel invariant -/

theorem shouldLog_eq_of_rel {stF : LogState} {stC : CState}
    (h : Rel stF stC) (x : LevelRef) :
    shouldLog stF x = cShouldLog stC x := by
  obtain ⟨htab, hlvl, hov, hsink⟩ := h
  have hres := getLevelOrDefault_congr x stF.levels stC.levels 0 htab
  by_cases hm : stF.currentLevel = 0
  · simp [shouldLog, cShouldLog, hlvl, hm]
  · simp [shouldLog, cShouldLog, hlvl, hm, cLevelOperand, hres]

theorem sink_eq_of_rel {stF : LogState} {stC : CState}
    (h : Rel stF stC) (x : LevelRef) :
    sinkFor stF x = cSinkFor stC x := by
  obtain ⟨htab, hlvl, hov, hsink⟩ := h
  cases x with
  | num v =>
    show (rlook stF.levelNames v).bind (externalLogFor stF.logOverrides)
      = (rlook stC.levelNames v).bind (externalLogFor stC.logOverrides)
    rw [hov]
    exact hsink v
  | str s =>
    show (some s).bind (externalLogFor stF.logOverrides)
      = (some s).bind (externalLogFor stC.logOverrides)
    rw [hov]
  | other => rfl

theorem logMessage_eq_of_rel {stF : LogState} {stC : CState}
    (h : Rel stF stC) (x : LevelRef) (args : List LogArg) :
    logMessage stF x args = cLogMessage stC x args := by
  rw [logMessage, cLogMessage, shouldLog_eq_of_rel h x, sink_eq_of_rel h x]

theorem sevLevelRef_eq_of_rel {stF : LogState} {stC : CState}
    (h : Rel stF stC) (name : String) :
    sevLevelRef stF name = cSevLevelRef stC name := by
  rw [sevLevelRef, cSevLevelRef, h.1 name]

theorem cLevelOperand_num (n : Int) : cLevelOperand (.num n) = n := rfl

/-- Whether one operation respects the numeric-writes restriction. -/
def opNumericOk (op : Op) : Bool :=
  match op with
  | .writeLevel (.num _) => true
  | .writeLevel _ => false
  | _ => true

theorem step_eq_of_rel {stF : LogState} {stC : CState}
    (h : Rel stF stC) (op : Op) (hop : opNumericOk op = true) :
    (stepF stF op).2.1 = (stepC stC op).2.1 ∧
    (stepF stF op).2.2.1 = (stepC stC op).2.2.1 ∧
    (stepF stF op).2.2.2 = (stepC stC op).2.2.2 ∧
    Rel (stepF stF op).1 (stepC stC op).1 := by
  obtain ⟨htab, hlvl, hov, hsink⟩ := h
  have h' : Rel stF stC := ⟨htab, hlvl, hov, hsink⟩
  cases op with
  | sev name args =>
    dsimp only [stepF, stepC]
    have he : sevCall stF name args = cSevCall stC name args := by
      rw [sevCall, cSevCall, sevLevelRef_eq_of_rel h' name]
      exact logMessage_eq_of_rel h' _ args
    exact ⟨rfl, congrArg Prod.fst he, congrArg Prod.snd he, h'⟩
  | call args =>
    dsimp only [stepF, stepC]
    have he : defaultCall stF args = cDefaultCall stC args := by
      rw [defaultCall, cDefaultCall, sevLevelRef_eq_of_rel h' "info"]
      exact logMessage_eq_of_rel h' _ args
    exact ⟨rfl, congrArg Prod.fst he, congrArg Prod.snd he, h'⟩
  | shouldQ x =>
    dsimp only [stepF, stepC]
    exact ⟨congrArg Obs.boolObs (shouldLog_eq_of_rel h' x), rfl, rfl, h'⟩
  | enable x =>
    dsimp only [stepF, stepC]
    refine ⟨rfl, rfl, rfl, htab, ?_, hov, hsink⟩
    show (cEnableLevel stC x).level
      = LevelRef.num (enableLevel stF x).currentLevel
    show LevelRef.num _ = LevelRef.num _
    rw [hlvl, getLevelOrDefault_congr x stC.levels stF.levels 0
      (fun k => (htab k).symm), cLevelOperand_num]
    rfl
  | disable x =>
    dsimp only [stepF, stepC]
    refine ⟨rfl, rfl, rfl, htab, ?_, hov, hsink⟩
    show (cDisableLevel stC x).level
      = LevelRef.num (disableLevel stF x).currentLevel
    show LevelRef.num _ = LevelRef.num _
    rw [hlvl, getLevelOrDefault_congr x stC.levels stF.levels 0
      (fun k => (htab k).symm), cLevelOperand_num]
    rfl
  | enabledQ =>
    dsimp only [stepF, stepC]
    refine ⟨?_, rfl, rfl, h'⟩
    show Obs.namesObs (getEnabledLevels stF)
      = Obs.namesObs (cGetEnabledLevels stC)
    congr 1
    rw [getEnabledLevels, cGetEnabledLevels, hlvl,
      htab "fatal", htab "error", htab "warn", htab "info", htab "debug",
      htab "verbose", htab "trace", htab "silly", cLevelOperand_num]
  | readLevel =>
    dsimp only [stepF, stepC]
    refine ⟨?_, rfl, rfl, h'⟩
    show Obs.levelObs (.num stF.currentLevel) = Obs.levelObs stC.level
    rw [hlvl]
  | writeLevel x =>
    cases x with
    | num n =>
      dsimp only [stepF, stepC]
      exact ⟨rfl, rfl, rfl, htab, rfl, hov, hsink⟩
    | str s => cases hop
    | other => cases hop

theorem run_eq_of_rel : ∀ (trace : List Op) (stF : LogState) (stC : CState),
    Rel stF stC → numericWritesOk trace = true →
    (runF stF trace).2.1 = (runC stC trace).2.1 ∧
    (runF stF trace).2.2.1 = (runC stC trace).2.2.1 ∧
    (runF stF trace).2.2.2 = (runC stC trace).2.2.2 ∧
    Rel (runF stF trace).1 (runC stC trace).1 := by
  intro trace
  induction trace with
  | nil => intro stF stC h _; exact ⟨rfl, rfl, rfl, h⟩
  | cons op rest ih =>
    intro stF stC h hnw
    have hsplit : numericWritesOk (op :: rest)
        = (opNumericOk op && numericWritesOk rest) := rfl
    rw [hsplit, Bool.and_eq_true] at hnw
    obtain ⟨hop, hrest⟩ := hnw
    obtain ⟨ho, hi, he, hrel⟩ := step_eq_of_rel h op hop
    obtain ⟨o2, i2, e2, r2⟩ := ih _ _ hrel hrest
    refine ⟨?_, ?_, ?_, r2⟩
    · show (stepF stF op).2.1 :: (runF (stepF stF op).1 rest).2.1
        = (stepC stC op).2.1 :: (runC (stepC stC op).1 rest).2.1
      rw [ho, o2]
    · show (stepF stF op).2.2.1 ++ (runF (stepF stF op).1 rest).2.2.1
        = (stepC stC op).2.2.1 ++ (runC (stepC stC op).1 rest).2.2.1
      rw [hi, i2]
    · show (stepF stF op).2.2.2 ++ (runF (stepF stF op).1 rest).2.2.2
        = (stepC stC op).2.2.2 ++ (runC (stepC stC op).1 rest).2.2.2
      rw [he, e2]

/-- Claim C10 counterexample. The two implementations are not behaviorally
equivalent: from identical fresh default construction, writing the string
"warn" to the level property and then asking shouldLog("warn") returns
true from the makeLog logger (its setter resolves the write to 4) and
false from the LazyLog instance (its plain field stores the string, which
the bitwise test coerces to 0). -/
theorem impl_equivalence_counterexample :
    (runF (makeLog defaultOptions) divergenceTrace).2.1
      = [.unitObs, .boolObs true] ∧
    (runC (lazyLogInit defaultOptions) divergenceTrace).2.1
      = [.unitObs, .boolObs false] ∧
    (runF (makeLog defaultOptions) divergenceTrace).2.1
      ≠ (runC (lazyLogInit defaultOptions) divergenceTrace).2.1 := by
  refine ⟨by decide, by decide, by decide⟩

/-- Claim C10 as amended (proved). For every options record and every
operation sequence on a single freshly constructed logger in which every
write to the level property writes a number, the function-style logger and
the class-style logger produce identical observation sequences (return
values), identical realized-thunk sequences, identical output-function
invocation sequences with identical arguments, and corresponding final
masks: the class level field holds exactly the number that is the
function-style mask. Sequences containing a non-numeric level write are
excluded, as the counterexample shows they must be. -/
theorem impl_equivalence_amended (opts : Options) (trace : List Op)
    (hnw : numericWritesOk trace = true) :
    (runF (makeLog opts) trace).2.1 = (runC (lazyLogInit opts) trace).2.1 ∧
    (runF (makeLog opts) trace).2.2.1
      = (runC (lazyLogInit opts) trace).2.2.1 ∧
    (runF (makeLog opts) trace).2.2.2
      = (runC (lazyLogInit opts) trace).2.2.2 ∧
    (runC (lazyLogInit opts) trace).1.level
      = .num (runF (makeLog opts) trace).1.currentLevel := by
  obtain ⟨ho, hi, he, hrel⟩ :=
    run_eq_of_rel trace (makeLog opts) (lazyLogInit opts) (rel_init opts) hnw
  exact ⟨ho, hi, he, hrel.2.1⟩

/-- Witness for C10 amended: a concrete numeric-write trace with a thunk,
a mask write and a level read produces identical observations. -/
theorem impl_equivalence_amended_witness :
    numericWritesOk [.sev "info" [.thunk 0 (.ret (.vstr "y"))],
      .writeLevel (.num 4), .shouldQ (.str "warn"), .readLevel] = true ∧
    (runF (makeLog defaultOptions) [.sev "info" [.thunk 0 (.ret (.vstr "y"))],
      .writeLevel (.num 4), .shouldQ (.str "warn"), .readLevel]).2.1
    = (runC (lazyLogInit defaultOptions)
        [.sev "info" [.thunk 0 (.ret (.vstr "y"))],
         .writeLevel (.num 4), .shouldQ (.str "warn"), .readLevel]).2.1 :=
  ⟨by decide,
    (impl_equivalence_amended defaultOptions
      [.sev "info" [.thunk 0 (.ret (.vstr "y"))],
       .writeLevel (.num 4), .shouldQ (.str "warn"), .readLevel]
      (by decide)).1⟩

end LogLazy
